import Mathlib

/-!  Shallow embedding of the `bandits` package (`src/bandits/agent.py` and
`src/bandits/policy.py`).

Numpy arrays are lists of rationals (reals for the softmax-based
`GradientAgent`, whose update uses `exp`); numpy scalars are `Nat`/`ℚ`/`ℝ`;
Python `None` is `Option.none`.  Indexing `arr[i]` with an in-range integer
`i` is `List.getD i 0` / `List.set`.  Indexing with Python `None` is numpy
`newaxis`, which yields a whole-array view, so `arr[None] += x` silently
updates every entry of `arr`; the embedding reproduces this wherever the
source can reach it with `last_action = None`.  -/

namespace Bandits

/-- State of the base `Agent` (`agent.py`, class `Agent`): arm count `k`,
the construction parameters `prior` and optional fixed step size `gamma`,
per-arm value estimates and attempt counts, step counter `t`, and the last
chosen action (`None` before the first `choose`). -/
structure AgentState where
  k : Nat
  prior : ℚ
  gamma : Option ℚ
  value_estimates : List ℚ
  action_attempts : List ℚ
  t : Nat
  last_action : Option Nat
deriving DecidableEq

/-- `Agent.__init__`: estimates start at `prior * np.ones(k)`, attempts at
`np.zeros(k)`, `t = 0`, `last_action = None`. -/
def Agent.init (k : Nat) (prior : ℚ) (gamma : Option ℚ) : AgentState :=
  { k := k, prior := prior, gamma := gamma,
    value_estimates := List.replicate k prior,
    action_attempts := List.replicate k 0,
    t := 0, last_action := none }

/-- `Agent.reset`: `_value_estimates[:] = prior`, `action_attempts[:] = 0`,
`last_action = None`, `t = 0` (slice assignment keeps the array length). -/
def Agent.reset (s : AgentState) : AgentState :=
  { s with
    value_estimates := s.value_estimates.map (fun _ => s.prior),
    action_attempts := s.action_attempts.map (fun _ => 0),
    last_action := none, t := 0 }

/-- `Agent.choose`: the action `a` returned by the bound policy is recorded
as `last_action` and returned; the policy's draw enters as the argument. -/
def Agent.choose (s : AgentState) (a : Nat) : AgentState :=
  { s with last_action := some a }

/-- `Agent.observe(reward)`.  With `last_action = a` an integer: increment
`action_attempts[a]`, take step size `g = 1/action_attempts[a]` when `gamma`
is `None` else `g = gamma`, and set
`value_estimates[a] += g * (reward - value_estimates[a])`; `t += 1`.
With `last_action = None` no exception is raised: numpy `arr[None]` is a
whole-array newaxis view, so every arm's attempt count is incremented and
every arm's estimate is updated with the same rule. -/
def Agent.observe (s : AgentState) (reward : ℚ) : AgentState :=
  match s.last_action with
  | some a =>
      let attempts1 := s.action_attempts.set a (s.action_attempts.getD a 0 + 1)
      let g : ℚ :=
        match s.gamma with
        | none => 1 / attempts1.getD a 0
        | some g0 => g0
      let q := s.value_estimates.getD a 0
      { s with
        action_attempts := attempts1,
        value_estimates := s.value_estimates.set a (q + g * (reward - q)),
        t := s.t + 1 }
  | none =>
      let attempts1 := s.action_attempts.map (fun x => x + 1)
      let value1 :=
        (s.value_estimates.zip attempts1).map (fun p =>
          let g : ℚ :=
            match s.gamma with
            | none => 1 / p.2
            | some g0 => g0
          p.1 + g * (reward - p.1))
      { s with
        action_attempts := attempts1,
        value_estimates := value1,
        t := s.t + 1 }

/-- Drive the `choose → observe` loop of the base agent: for each arm `a`
in `arms` in order, record it as the policy's choice and observe reward
`r`. -/
def Agent.observeEach (s : AgentState) (r : ℚ) (arms : List Nat) : AgentState :=
  arms.foldl (fun st a => Agent.observe (Agent.choose st a) r) s

/-- Claim C2: the spec demands that `observe` before any `choose` raise.
The code does not: with `last_action = None`, numpy newaxis indexing makes
a fresh two-arm agent's `observe(5)` silently set every arm's attempt count
to 1 and every value estimate to 5, and advance `t` to 1. -/
theorem observe_before_choose_silently_updates :
    (Agent.observe (Agent.init 2 0 none) 5).action_attempts = [1, 1] ∧
    (Agent.observe (Agent.init 2 0 none) 5).value_estimates = [5, 5] ∧
    (Agent.observe (Agent.init 2 0 none) 5).t = 1 ∧
    (Agent.observe (Agent.init 2 0 none) 5).last_action = none := by
  refine ⟨?_, ?_, rfl, rfl⟩ <;> norm_num [Agent.observe, Agent.init, List.replicate]

/-- Reading an updated position of a list: `set` then `getD` at the same
in-range index returns the written value. -/
lemma getD_set_self {α : Type} (l : List α) (a : Nat) (x d : α)
    (h : a < l.length) : (l.set a x).getD a d = x := by
  rw [List.getD_eq_getElem _ _ (by simpa using h)]
  exact List.getElem_set_self (by simpa using h)

/-- Reading an untouched position of a list: `set` at `a` leaves `getD` at
any `i ≠ a` unchanged. -/
lemma getD_set_ne {α : Type} (l : List α) (a i : Nat) (x d : α)
    (h : i ≠ a) : (l.set a x).getD i d = l.getD i d := by
  rw [List.getD_eq_getD_get?, List.getD_eq_getD_get?, List.get?_eq_getElem?,
    List.get?_eq_getElem?, List.getElem?_set_ne (Ne.symm h)]

/-- Claim C10: frame property of `Agent.observe`: after a `choose` that
selected arm `a`, observing a reward changes only `value_estimates[a]`,
`action_attempts[a]` and `t`; for every other arm `i ≠ a` the estimate and
attempt count are unchanged, and `k`, `prior`, `gamma`, `last_action` are
unchanged. -/
theorem observe_frame_property (s : AgentState) (r : ℚ) (a : Nat)
    (hla : s.last_action = some a) :
    (∀ i, i ≠ a →
      (Agent.observe s r).value_estimates.getD i 0 = s.value_estimates.getD i 0 ∧
      (Agent.observe s r).action_attempts.getD i 0 = s.action_attempts.getD i 0) ∧
    (Agent.observe s r).k = s.k ∧
    (Agent.observe s r).prior = s.prior ∧
    (Agent.observe s r).gamma = s.gamma ∧
    (Agent.observe s r).last_action = s.last_action ∧
    (Agent.observe s r).t = s.t + 1 := by
  simp only [Agent.observe, hla]
  exact ⟨fun i hi => ⟨getD_set_ne _ _ _ _ _ hi, getD_set_ne _ _ _ _ _ hi⟩,
    trivial, trivial, trivial, trivial, trivial⟩

/-- Witness for C10 at a concrete input: a fresh two-arm agent that chose
arm 0 and observes reward 7 leaves arm 1's state and its configuration
untouched. -/
theorem observe_frame_property_witness :
    (Agent.observe (Agent.choose (Agent.init 2 0 none) 0) 7).value_estimates.getD 1 0
        = (Agent.choose (Agent.init 2 0 none) 0).value_estimates.getD 1 0 ∧
    (Agent.observe (Agent.choose (Agent.init 2 0 none) 0) 7).gamma
        = (Agent.choose (Agent.init 2 0 none) 0).gamma ∧
    (Agent.observe (Agent.choose (Agent.init 2 0 none) 0) 7).t
        = (Agent.choose (Agent.init 2 0 none) 0).t + 1 := by
  have h := observe_frame_property (Agent.choose (Agent.init 2 0 none) 0) 7 0 rfl
  exact ⟨(h.1 1 (by decide)).1, h.2.2.2.1, h.2.2.2.2.2⟩

/-- In sample-average mode (`gamma = None`), one observation of reward `r`
on an arm with zero recorded attempts sets that arm's estimate exactly to
`r`: the step size is `1/(0+1) = 1`. -/
lemma observe_fresh_arm (s : AgentState) (r : ℚ) (a : Nat)
    (hg : s.gamma = none) (hla : s.last_action = some a)
    (hav : a < s.value_estimates.length) (haa : a < s.action_attempts.length)
    (hz : s.action_attempts.getD a 0 = 0) :
    (Agent.observe s r).value_estimates.getD a 0 = r := by
  simp only [Agent.observe, hla, hg]
  rw [getD_set_self _ _ _ _ hav, getD_set_self _ _ _ _ haa, hz]
  norm_num

/-- One round-robin step of the base agent in sample-average mode: choosing
the first still-fresh arm `j` and observing reward `r` extends the prefix of
arms whose estimate is `r` and attempt count is 1 by one. -/
lemma observe_step_shape (k j : Nat) (p r : ℚ) (s : AgentState)
    (hjk : j < k) (hg : s.gamma = none)
    (hv : s.value_estimates = List.replicate j r ++ List.replicate (k - j) p)
    (ha : s.action_attempts = List.replicate j 1 ++ List.replicate (k - j) 0) :
    (Agent.observe (Agent.choose s j) r).value_estimates
        = List.replicate (j + 1) r ++ List.replicate (k - (j + 1)) p ∧
    (Agent.observe (Agent.choose s j) r).action_attempts
        = List.replicate (j + 1) 1 ++ List.replicate (k - (j + 1)) 0 ∧
    (Agent.observe (Agent.choose s j) r).gamma = none := by
  have hgetD : ∀ y c : ℚ,
      (List.replicate j c ++ List.replicate (k - j) y).getD j 0 = y := by
    intro y c
    rw [List.getD_append_right _ _ _ _ (by simp), List.length_replicate,
      Nat.sub_self, List.getD_eq_getElem _ _ (by simp; omega)]
    exact List.getElem_replicate _ _
  have hset : ∀ x y c : ℚ,
      (List.replicate j c ++ List.replicate (k - j) y).set j x
        = List.replicate j c ++ x :: List.replicate (k - (j + 1)) y := by
    intro x y c
    rw [List.set_append_right _ _ (by simp), List.length_replicate,
      Nat.sub_self]
    have hkj : k - j = (k - (j + 1)) + 1 := by omega
    rw [hkj, List.replicate_succ, List.set_cons_zero]
  have hmid : ∀ x c : ℚ, ∀ tail : List ℚ,
      (List.replicate j c ++ x :: tail).getD j 0 = x := by
    intro x c tail
    rw [List.getD_append_right _ _ _ _ (by simp), List.length_replicate,
      Nat.sub_self]
    rfl
  simp only [Agent.observe, Agent.choose, hg]
  refine ⟨?_, ?_, trivial⟩
  · rw [ha, hv, hgetD, hgetD, hset, hset, hmid]
    have hstep : p + 1 / ((0:ℚ) + 1) * (r - p) = r := by norm_num
    rw [hstep, List.append_cons, ← List.replicate_succ']
  · rw [ha, hgetD, hset]
    have hone : (0:ℚ) + 1 = 1 := by norm_num
    rw [hone, List.append_cons, ← List.replicate_succ']

/-- Shape of the base agent's state after round-robin observing reward `r`
on the first `j` of `k` fresh arms: the first `j` estimates are `r` and the
first `j` attempt counts are 1, the rest still hold the prior / zero. -/
lemma observeEach_range_shape (k : Nat) (p r : ℚ) :
    ∀ j, j ≤ k →
      (Agent.observeEach (Agent.init k p none) r (List.range j)).value_estimates
          = List.replicate j r ++ List.replicate (k - j) p ∧
      (Agent.observeEach (Agent.init k p none) r (List.range j)).action_attempts
          = List.replicate j 1 ++ List.replicate (k - j) 0 ∧
      (Agent.observeEach (Agent.init k p none) r (List.range j)).gamma = none := by
  intro j
  induction j with
  | zero =>
      intro _
      simp [Agent.observeEach, Agent.init]
  | succ j ih =>
      intro hj
      obtain ⟨hv, ha, hg⟩ := ih (by omega)
      have hrw : Agent.observeEach (Agent.init k p none) r (List.range (j + 1))
          = Agent.observe (Agent.choose
              (Agent.observeEach (Agent.init k p none) r (List.range j)) j) r := by
        simp only [Agent.observeEach]
        rw [List.range_succ, List.foldl_append, List.foldl_cons, List.foldl_nil]
      rw [hrw]
      exact observe_step_shape k j p r _ (by omega) hg hv ha

/-- Claim C6: with `gamma` unset (sample-average mode), one observation of
reward `r` on an arm with zero prior attempts sets that arm's estimate
exactly to `r` (step size `1/1 = 1` overwrites the prior); hence after `k`
round-robin observations of reward `r` on `k` distinct fresh arms, every
arm's estimate equals exactly `r`. -/
theorem sample_average_first_observation (s : AgentState) (r p : ℚ)
    (k a : Nat) (hg : s.gamma = none) (hla : s.last_action = some a)
    (hav : a < s.value_estimates.length) (haa : a < s.action_attempts.length)
    (hz : s.action_attempts.getD a 0 = 0) :
    (Agent.observe s r).value_estimates.getD a 0 = r ∧
    ∀ i, i < k →
      (Agent.observeEach (Agent.init k p none) r
        (List.range k)).value_estimates.getD i 0 = r := by
  refine ⟨observe_fresh_arm s r a hg hla hav haa hz, fun i hi => ?_⟩
  rw [(observeEach_range_shape k p r k le_rfl).1, Nat.sub_self]
  simp only [List.replicate, List.append_nil]
  rw [List.getD_eq_getElem _ _ (by simpa using hi)]
  exact List.getElem_replicate _ _

/-- Witness for C6 at a concrete input: a fresh two-arm agent that chose
arm 0 observes reward 5 and ends with estimate 5 on arm 0; round-robin over
three fresh arms with reward 5 puts estimate 5 on arm 1. -/
theorem sample_average_first_observation_witness :
    (Agent.observe (Agent.choose (Agent.init 2 0 none) 0) 5).value_estimates.getD 0 0
        = 5 ∧
    (Agent.observeEach (Agent.init 3 0 none) 5
        (List.range 3)).value_estimates.getD 1 0 = 5 := by
  have h := sample_average_first_observation (Agent.choose (Agent.init 2 0 none) 0)
    5 0 3 0 rfl rfl (by decide) (by decide) (by decide)
  exact ⟨h.1, h.2 1 (by decide)⟩

/-- `np.argmax` over a rational vector: index of the first occurrence of the
maximum (strict comparison keeps the earlier index on ties). -/
def npArgmax (l : List ℚ) : Nat :=
  (List.range l.length).foldl
    (fun best i => if l.getD best 0 < l.getD i 0 then i else best) 0

/-- State of `FrequentistPolicy` (`policy.py`): explore horizon `N`, its own
call counter `n`, the last round-robin choice and the frozen optimal
choice (both `None` at construction). -/
structure FrequentistPolicyState where
  N : Nat
  n : Nat
  last_choice : Option Nat
  optimal_choice : Option Nat
deriving DecidableEq

/-- `FrequentistPolicy.__init__(n)`. -/
def FrequentistPolicy.init (n : Nat) : FrequentistPolicyState :=
  { N := n, n := 0, last_choice := none, optimal_choice := none }

/-- `FrequentistPolicy.choose(agent)`: branches on the counter `n` against
the horizon `N`; the agent enters through its value estimates
(`max(agent.value_estimates.shape)` is their length).  Note that the source
never increments `self.n` and never writes `self._last_choice`, so the
`n < N` branch leaves the policy state unchanged. -/
def FrequentistPolicy.choose (p : FrequentistPolicyState) (values : List ℚ) :
    Nat × FrequentistPolicyState :=
  if p.n < p.N then
    let this_choice :=
      match p.last_choice with
      | none => 0
      | some lc => if lc ≠ values.length then lc + 1 else 0
    (this_choice, p)
  else if p.n = p.N then
    let opt := npArgmax values
    (opt, { p with optimal_choice := some opt })
  else
    (p.optimal_choice.getD 0, p)

/-- Iterate `FrequentistPolicy.choose` over a sequence of value-estimate
vectors (one per call), collecting the chosen arms. -/
def FrequentistPolicy.run (p : FrequentistPolicyState) :
    List (List ℚ) → List Nat × FrequentistPolicyState
  | [] => ([], p)
  | vs :: rest =>
      let step := FrequentistPolicy.choose p vs
      let next := FrequentistPolicy.run step.2 rest
      (step.1 :: next.1, next.2)

/-- Claim C1: for `N = 3`, `k = 4` the spec expects choices `0, 1, 2`, then
the frozen argmax (arm 1 here).  The code's counter `n` and `_last_choice`
are never updated by `choose`, so all four calls return arm 0 and the
policy state is left exactly as constructed: nothing is ever frozen. -/
theorem frequentist_policy_stuck_at_zero :
    (FrequentistPolicy.run (FrequentistPolicy.init 3)
      [[0, 1, 0, 0], [0, 1, 0, 0], [0, 1, 0, 0], [0, 1, 0, 0]]).1
        = [0, 0, 0, 0] ∧
    (FrequentistPolicy.run (FrequentistPolicy.init 3)
      [[0, 1, 0, 0], [0, 1, 0, 0], [0, 1, 0, 0], [0, 1, 0, 0]]).2
        = FrequentistPolicy.init 3 := by
  constructor <;> rfl

/-- `EpsilonGreedyPolicy` configuration: the exploration probability. -/
structure EpsilonGreedyPolicyState where
  epsilon : ℚ
deriving DecidableEq

/-- `EpsilonGreedyPolicy.__init__(epsilon)`: stores `epsilon` unchecked. -/
def EpsilonGreedyPolicy.init (epsilon : ℚ) : EpsilonGreedyPolicyState :=
  ⟨epsilon⟩

/-- `UCBPolicy` configuration: the confidence coefficient. -/
structure UCBPolicyState where
  c : ℚ
deriving DecidableEq

/-- `UCBPolicy.__init__(c)`: stores `c` unchecked. -/
def UCBPolicy.init (c : ℚ) : UCBPolicyState := ⟨c⟩

/-- Claim C5: the spec demands rejection of `epsilon` outside `[0,1]` and
`c ≤ 0` at construction.  Both constructors are total and store the invalid
values without complaint: `EpsilonGreedyPolicy(2)` and `UCBPolicy(0)` are
silently accepted. -/
theorem policy_constructors_accept_invalid :
    (EpsilonGreedyPolicy.init 2).epsilon = 2 ∧ ¬ ((2:ℚ) ≤ 1) ∧
    (UCBPolicy.init 0).c = 0 ∧ ¬ ((0:ℚ) < 0) := by
  refine ⟨rfl, by norm_num, rfl, by norm_num⟩

/-- State of `FrequentistAgent` (`agent.py`): the inherited base-agent state
(constructed with `prior = 0`, `gamma = None`) plus its own round-robin
counter `n` (starting at -1), arm count `num_arm`, last round-robin choice
and frozen optimal choice. -/
structure FrequentistAgentState where
  base : AgentState
  n : Int
  num_arm : Nat
  last_choice : Nat
  optimal_choice : Option Nat
deriving DecidableEq

/-- `FrequentistAgent.__init__`: base construction with default `prior = 0`
and `gamma = None`; `n = -1`, `num_arm = max(value_estimates.shape) = k`,
`_last_choice = 0`, `_optimal_choice = None`. -/
def FrequentistAgent.init (k : Nat) : FrequentistAgentState :=
  { base := Agent.init k 0 none, n := -1, num_arm := k,
    last_choice := 0, optimal_choice := none }

/-- `FrequentistAgent.rand_choice`: increment `n`; when `n > 0`, advance
`_last_choice`, wrapping to 0 only when it already equals `num_arm` (not
`num_arm - 1`); return `_last_choice`. -/
def FrequentistAgent.rand_choice (s : FrequentistAgentState) :
    Nat × FrequentistAgentState :=
  let n1 := s.n + 1
  let lc :=
    if 0 < n1 then
      (if s.last_choice ≠ s.num_arm then s.last_choice + 1 else 0)
    else s.last_choice
  (lc, { s with n := n1, last_choice := lc })

/-- Iterate `rand_choice`, collecting the returned arm indices. -/
def FrequentistAgent.randRun (s : FrequentistAgentState) :
    Nat → List Nat × FrequentistAgentState
  | 0 => ([], s)
  | m + 1 =>
      let step := FrequentistAgent.rand_choice s
      let next := FrequentistAgent.randRun step.2 m
      (step.1 :: next.1, next.2)

/-- `Agent.choose` as inherited by `FrequentistAgent`. -/
def FrequentistAgent.choose (s : FrequentistAgentState) (a : Nat) :
    FrequentistAgentState :=
  { s with base := Agent.choose s.base a }

/-- `Agent.observe` as inherited by `FrequentistAgent`. -/
def FrequentistAgent.observe (s : FrequentistAgentState) (r : ℚ) :
    FrequentistAgentState :=
  { s with base := Agent.observe s.base r }

/-- `FrequentistAgent.reset`: resets only `n`, `_last_choice` and
`_optimal_choice`; it does not call `Agent.reset`, so the base fields
(estimates, attempts, `t`, `last_action`) keep their current values. -/
def FrequentistAgent.reset (s : FrequentistAgentState) : FrequentistAgentState :=
  { s with n := -1, last_choice := 0, optimal_choice := none }

/-- Claim C9: on a fresh two-arm `FrequentistAgent` the first three calls to
`rand_choice` return `0, 1, 2`: the wrap test compares against `num_arm`
instead of `num_arm - 1`, so the third call returns arm index 2, which is
not an element of `[0, 2)`. -/
theorem frequentist_agent_rand_choice_out_of_range :
    (FrequentistAgent.randRun (FrequentistAgent.init 2) 3).1 = [0, 1, 2] ∧
    ¬ (∀ c ∈ (FrequentistAgent.randRun (FrequentistAgent.init 2) 3).1, c < 2) := by
  refine ⟨rfl, by decide⟩

/-- Claim C4: after one `choose`/`observe` cycle on a two-arm
`FrequentistAgent`, `reset()` leaves the inherited estimate, step counter
and last action as they were, while a newly constructed agent has the
prior estimates, `t = 0` and no last action: reset is not field-for-field
construction. -/
theorem frequentist_agent_reset_not_fresh :
    (FrequentistAgent.reset (FrequentistAgent.observe
        (FrequentistAgent.choose (FrequentistAgent.init 2) 0) 1)).base.value_estimates
      = [1, 0] ∧
    (FrequentistAgent.init 2).base.value_estimates = [0, 0] ∧
    (FrequentistAgent.reset (FrequentistAgent.observe
        (FrequentistAgent.choose (FrequentistAgent.init 2) 0) 1)).base.t = 1 ∧
    (FrequentistAgent.init 2).base.t = 0 ∧
    (FrequentistAgent.reset (FrequentistAgent.observe
        (FrequentistAgent.choose (FrequentistAgent.init 2) 0) 1)).base.last_action
      = some 0 ∧
    (FrequentistAgent.init 2).base.last_action = none := by
  refine ⟨?_, ?_, rfl, rfl, rfl, rfl⟩ <;>
    norm_num [FrequentistAgent.reset, FrequentistAgent.observe,
      FrequentistAgent.choose, FrequentistAgent.init, Agent.observe,
      Agent.choose, Agent.init, List.replicate]

/-- Classification of the IEEE doubles arising in `UCBPolicy.choose`'s
bonus computation: exactly zero, positive finite, positive infinity, or
NaN.  Every intermediate value there is of one of these four kinds (the
numerator `log(t+1)` with `t ≥ 0` is never negative), and the claim about
the bonus — is it exactly 0, NaN or infinity — lives entirely at this
level. -/
inductive FpClass where
  | zero
  | posfin
  | pinf
  | nan
deriving DecidableEq

/-- Class of `np.log(t + 1)` for the integer step counter `t`:
`log 1 = 0` exactly, and `log(t+1)` is positive and finite for `t ≥ 1`. -/
def npLogSucc (t : Nat) : FpClass :=
  if t = 0 then FpClass.zero else FpClass.posfin

/-- Class of the IEEE division of such a value by the attempt count:
`0/0 = NaN`, `(positive)/0 = +inf`, and division by a count `≥ 1` keeps
the class. -/
def fpDivCount (x : FpClass) (attempts : Nat) : FpClass :=
  if attempts = 0 then
    match x with
    | FpClass.zero => FpClass.nan
    | FpClass.posfin => FpClass.pinf
    | FpClass.pinf => FpClass.pinf
    | FpClass.nan => FpClass.nan
  else x

/-- `exploration[np.isnan(exploration)] = 0`: replaces exactly the NaN
entries by 0; infinities are not NaN and pass through. -/
def fpZeroOutNan (x : FpClass) : FpClass :=
  if x = FpClass.nan then FpClass.zero else x

/-- Class of `np.power(x, e)` for a positive exponent `e = 1/c`, `c > 0`:
`0 ^ e = 0`, a positive finite base stays positive finite, `inf ^ e = inf`,
`nan ^ e = nan` — the class is preserved. -/
def fpPowPos (x : FpClass) : FpClass := x

/-- The three lines of `UCBPolicy.choose` that build the per-arm
exploration bonus, at class level:
`exploration = np.log(agent.t + 1) / agent.action_attempts`, then
`exploration[np.isnan(exploration)] = 0`, then
`exploration = np.power(exploration, 1 / self.c)`. -/
def ucbExplorationClass (t : Nat) (attempts : List Nat) : List FpClass :=
  ((attempts.map (fun a => fpDivCount (npLogSucc t) a)).map
    fpZeroOutNan).map fpPowPos

/-- Claim C3 (counterexample): with arm 1 attempted once (hence `t = 1`)
and arm 0 never attempted, the bonus the code computes for arm 0 is
positive infinity — `log 2 / 0 = +inf`, which the NaN guard does not catch
— and in particular it is not exactly 0. -/
theorem ucb_zero_attempt_bonus_not_zero :
    (ucbExplorationClass 1 [0, 1]).getD 0 FpClass.nan = FpClass.pinf ∧
    FpClass.pinf ≠ FpClass.zero := by
  decide

/-- Claim C3 (amended): whenever `t ≥ 1`, the exploration bonus computed
for an arm with zero attempts is positive infinity (not NaN — the guard
only fires for `t = 0`, where `0/0` is NaN and is replaced by 0). -/
theorem ucb_zero_attempt_bonus_pinf (t : Nat) (attempts : List Nat) (i : Nat)
    (ht : 1 ≤ t) (hi : i < attempts.length)
    (hz : attempts.getD i 0 = 0) :
    (ucbExplorationClass t attempts).getD i FpClass.nan = FpClass.pinf := by
  unfold ucbExplorationClass
  rw [List.getD_eq_getElem _ _ (by simpa using hi)]
  simp only [List.getElem_map]
  rw [List.getD_eq_getElem _ _ hi] at hz
  rw [hz]
  unfold npLogSucc fpDivCount fpZeroOutNan fpPowPos
  have ht0 : t ≠ 0 := by omega
  simp [ht0]

/-- Witness for the amended C3 at the concrete input `t = 1`,
`attempts = [0, 1]`, arm 0. -/
theorem ucb_zero_attempt_bonus_pinf_witness :
    (ucbExplorationClass 1 [0, 1]).getD 0 FpClass.nan = FpClass.pinf :=
  ucb_zero_attempt_bonus_pinf 1 [0, 1] 0 (by decide) (by decide) (by decide)

/-- State of `BetaAgent` (`agent.py`): the base fields it inherits and
uses, the Binomial trials-per-pull `n`, the Thompson-sampling flag `ts`,
and the per-arm posterior parameters `alpha`, `beta` held by the wrapped
Beta distribution (both initialized to all-ones). -/
structure BetaAgentState where
  k : Nat
  n : ℚ
  ts : Bool
  alpha : List ℚ
  beta : List ℚ
  value_estimates : List ℚ
  action_attempts : List ℚ
  t : Nat
  last_action : Option Nat
deriving DecidableEq

/-- `BetaAgent.__init__`: uniform prior `alpha = beta = ones(k)`, value
estimates overwritten with `np.zeros(k)`, base fields as in `Agent`. -/
def BetaAgent.init (k : Nat) (n : ℚ) (ts : Bool) : BetaAgentState :=
  { k := k, n := n, ts := ts,
    alpha := List.replicate k 1, beta := List.replicate k 1,
    value_estimates := List.replicate k 0,
    action_attempts := List.replicate k 0,
    t := 0, last_action := none }

/-- `Agent.choose` as inherited by `BetaAgent`. -/
def BetaAgent.choose (s : BetaAgentState) (a : Nat) : BetaAgentState :=
  { s with last_action := some a }

/-- `BetaAgent.observe(reward)`: increment the chosen arm's attempt count,
add the reward to its `alpha` and `n - reward` to its `beta`, then
recompute the value estimates — a posterior draw (supplied here as the
oracle `draw`, since Thompson sampling is random) when `ts`, else the
posterior means `alpha / (alpha + beta)`; `t += 1`.  With
`last_action = None`, numpy newaxis indexing updates every arm. -/
def BetaAgent.observe (s : BetaAgentState) (reward : ℚ) (draw : List ℚ) :
    BetaAgentState :=
  match s.last_action with
  | some a =>
      let attempts1 := s.action_attempts.set a (s.action_attempts.getD a 0 + 1)
      let alpha1 := s.alpha.set a (s.alpha.getD a 0 + reward)
      let beta1 := s.beta.set a (s.beta.getD a 0 + (s.n - reward))
      let ve :=
        if s.ts then draw
        else (alpha1.zip beta1).map (fun p => p.1 / (p.1 + p.2))
      { s with
        action_attempts := attempts1,
        alpha := alpha1,
        beta := beta1,
        value_estimates := ve,
        t := s.t + 1 }
  | none =>
      let attempts1 := s.action_attempts.map (fun x => x + 1)
      let alpha1 := s.alpha.map (fun x => x + reward)
      let beta1 := s.beta.map (fun x => x + (s.n - reward))
      let ve :=
        if s.ts then draw
        else (alpha1.zip beta1).map (fun p => p.1 / (p.1 + p.2))
      { s with
        action_attempts := attempts1,
        alpha := alpha1,
        beta := beta1,
        value_estimates := ve,
        t := s.t + 1 }

/-- Claim C8: `BetaAgent.observe` adds the reward to `alpha[last_action]`
and `n - reward` to `beta[last_action]`; concretely, with `n = 1` and the
uniform prior, observing rewards 1, 0, 1 on arm 0 leaves the posterior
`alpha = 3`, `beta = 2` there. -/
theorem beta_agent_posterior_update (s : BetaAgentState) (r : ℚ)
    (d : List ℚ) (a : Nat) (hla : s.last_action = some a)
    (ha : a < s.alpha.length) (hb : a < s.beta.length) :
    (BetaAgent.observe s r d).alpha.getD a 0 = s.alpha.getD a 0 + r ∧
    (BetaAgent.observe s r d).beta.getD a 0 = s.beta.getD a 0 + (s.n - r) ∧
    ((BetaAgent.observe (BetaAgent.observe (BetaAgent.observe
        (BetaAgent.choose (BetaAgent.init 1 1 false) 0) 1 []) 0 []) 1
          []).alpha.getD 0 0 = 3 ∧
      (BetaAgent.observe (BetaAgent.observe (BetaAgent.observe
        (BetaAgent.choose (BetaAgent.init 1 1 false) 0) 1 []) 0 []) 1
          []).beta.getD 0 0 = 2) := by
  refine ⟨?_, ?_, ?_, ?_⟩
  · simp only [BetaAgent.observe, hla]
    exact getD_set_self _ _ _ _ ha
  · simp only [BetaAgent.observe, hla]
    exact getD_set_self _ _ _ _ hb
  · norm_num [BetaAgent.observe, BetaAgent.choose, BetaAgent.init,
      List.replicate]
  · norm_num [BetaAgent.observe, BetaAgent.choose, BetaAgent.init,
      List.replicate]

/-- Witness for C8 at a concrete input: one observation of reward 1 on arm
0 of a fresh two-arm `BetaAgent` with `n = 1` takes `alpha[0]` from 1 to 2
and `beta[0]` stays 1. -/
theorem beta_agent_posterior_update_witness :
    (BetaAgent.observe (BetaAgent.choose (BetaAgent.init 2 1 false) 0)
        1 []).alpha.getD 0 0
      = (BetaAgent.choose (BetaAgent.init 2 1 false) 0).alpha.getD 0 0 + 1 ∧
    (BetaAgent.observe (BetaAgent.choose (BetaAgent.init 2 1 false) 0)
        1 []).beta.getD 0 0
      = (BetaAgent.choose (BetaAgent.init 2 1 false) 0).beta.getD 0 0
        + ((BetaAgent.choose (BetaAgent.init 2 1 false) 0).n - 1) := by
  have h := beta_agent_posterior_update
    (BetaAgent.choose (BetaAgent.init 2 1 false) 0) 1 [] 0 rfl
    (by decide) (by decide)
  exact ⟨h.1, h.2.1⟩

/-- Softmax probability vector as computed in `GradientAgent.observe` (and
`SoftmaxPolicy.choose`): `pi = np.exp(v) / np.sum(np.exp(v))`. -/
noncomputable def softmax (l : List ℝ) : List ℝ :=
  l.map (fun v => Real.exp v / (l.map Real.exp).sum)

/-- State of `GradientAgent` (`agent.py`): the base fields (its estimates
are preferences, its `gamma` is unused), the fixed learning rate `alpha`,
the baseline flag, and the running average reward. -/
structure GradientAgentState where
  k : Nat
  prior : ℝ
  alpha : ℝ
  baseline : Bool
  value_estimates : List ℝ
  action_attempts : List ℝ
  t : Nat
  last_action : Option Nat
  average_reward : ℝ

/-- `GradientAgent.__init__`: base construction plus `alpha`, `baseline`
and `average_reward = 0`. -/
def GradientAgent.init (k : Nat) (prior alpha : ℝ) (baseline : Bool) :
    GradientAgentState :=
  { k := k, prior := prior, alpha := alpha, baseline := baseline,
    value_estimates := List.replicate k prior,
    action_attempts := List.replicate k 0,
    t := 0, last_action := none, average_reward := 0 }

/-- `Agent.choose` as inherited by `GradientAgent`. -/
def GradientAgent.choose (s : GradientAgentState) (a : Nat) :
    GradientAgentState :=
  { s with last_action := some a }

/-- The running-average baseline after the update at the top of
`GradientAgent.observe`: when enabled, it moves toward the reward with
step `1 / np.sum(action_attempts)`, the attempts already incremented. -/
noncomputable def GradientAgent.avgAfter (s : GradientAgentState)
    (reward : ℝ) : ℝ :=
  if s.baseline then
    s.average_reward +
      1 / (match s.last_action with
        | some a => s.action_attempts.set a (s.action_attempts.getD a 0 + 1)
        | none => s.action_attempts.map (fun x => x + 1)).sum
        * (reward - s.average_reward)
  else s.average_reward

/-- `GradientAgent.observe(reward)`: increment the chosen arm's attempt
count, update the baseline, compute `pi`, then write
`ht = v[a] + alpha*(reward - avg)*(1 - pi[a])` for the chosen arm while
subtracting `alpha*(reward - avg)*pi` from every entry (`ht` was copied
from the scalar `v[a]` before the subtraction, and overwrites position
`a`); `t += 1`.  With `last_action = None`, `ht` is a newaxis view aliasing
the estimate array, so the in-place `+=` and `-=` combine to
`v + A - 2*A*pi` and the final self-assignment is the identity. -/
noncomputable def GradientAgent.observe (s : GradientAgentState)
    (reward : ℝ) : GradientAgentState :=
  let avg1 := GradientAgent.avgAfter s reward
  let pi := softmax s.value_estimates
  match s.last_action with
  | some a =>
      let ht := s.value_estimates.getD a 0
          + s.alpha * (reward - avg1) * (1 - pi.getD a 0)
      { s with
        action_attempts :=
          s.action_attempts.set a (s.action_attempts.getD a 0 + 1),
        average_reward := avg1,
        value_estimates :=
          ((s.value_estimates.zip pi).map
            (fun p => p.1 - s.alpha * (reward - avg1) * p.2)).set a ht,
        t := s.t + 1 }
  | none =>
      { s with
        action_attempts := s.action_attempts.map (fun x => x + 1),
        average_reward := avg1,
        value_estimates :=
          (s.value_estimates.zip pi).map
            (fun p => p.1 + s.alpha * (reward - avg1) * (1 - 2 * p.2)),
        t := s.t + 1 }

/-- Zipping a list with a mapped copy of itself pairs each element with its
image. -/
lemma zip_self_map {α β : Type} (l : List α) (f : α → β) :
    l.zip (l.map f) = l.map (fun x => (x, f x)) := by
  induction l with
  | nil => rfl
  | cons hd tl ih => simp [ih]

/-- Sum of a list after writing `x` at an in-range position `a`. -/
lemma sum_set_real (l : List ℝ) (a : Nat) (x : ℝ) (h : a < l.length) :
    (l.set a x).sum = l.sum - l.getD a 0 + x := by
  induction l generalizing a with
  | nil => simp at h
  | cons hd tl ih =>
      cases a with
      | zero => simp; ring
      | succ a =>
          simp only [List.set_cons_succ, List.sum_cons, List.getD_cons_succ]
          rw [ih a (by simpa using h)]
          ring

/-- Sum of the uniform shift `v - A * f v` over a list. -/
lemma sum_map_sub_mul (l : List ℝ) (A : ℝ) (f : ℝ → ℝ) :
    (l.map (fun v => v - A * f v)).sum = l.sum - A * (l.map f).sum := by
  induction l with
  | nil => simp
  | cons hd tl ih =>
      simp only [List.map_cons, List.sum_cons, ih]
      ring

/-- Dividing each entry by a common denominator divides the sum. -/
lemma sum_map_div_exp (l : List ℝ) (d : ℝ) :
    (l.map (fun v => Real.exp v / d)).sum = (l.map Real.exp).sum / d := by
  induction l with
  | nil => simp
  | cons hd tl ih =>
      simp only [List.map_cons, List.sum_cons, ih]
      ring

/-- The softmax of a nonempty preference vector sums to exactly 1. -/
lemma softmax_sum (l : List ℝ) (hl : l ≠ []) : (softmax l).sum = 1 := by
  unfold softmax
  rw [sum_map_div_exp]
  have hpos : 0 < (l.map Real.exp).sum := by
    refine List.sum_pos _ (fun x hx => ?_) (by simpa using hl)
    obtain ⟨y, _, rfl⟩ := List.mem_map.mp hx
    exact Real.exp_pos y
  exact div_self (ne_of_gt hpos)

/-- Claim C7: in exact real arithmetic, `GradientAgent.observe` adds
`alpha*(reward - baseline)*(1 - pi[a])` to the chosen arm `a`, subtracts
`alpha*(reward - baseline)*pi[i]` from every other arm `i`, and these
per-step adjustments cancel: the sum of the preferences is conserved. -/
theorem gradient_preference_deltas (s : GradientAgentState) (r : ℝ) (a : Nat)
    (hla : s.last_action = some a) (ha : a < s.value_estimates.length) :
    (GradientAgent.observe s r).value_estimates.getD a 0
        = s.value_estimates.getD a 0
          + s.alpha * (r - GradientAgent.avgAfter s r)
            * (1 - (softmax s.value_estimates).getD a 0) ∧
    (∀ i, i ≠ a →
      (GradientAgent.observe s r).value_estimates.getD i 0
        = s.value_estimates.getD i 0
          - s.alpha * (r - GradientAgent.avgAfter s r)
            * (softmax s.value_estimates).getD i 0) ∧
    (GradientAgent.observe s r).value_estimates.sum
        = s.value_estimates.sum := by
  have hobs : (GradientAgent.observe s r).value_estimates
      = ((s.value_estimates.zip (softmax s.value_estimates)).map
          (fun p => p.1 - s.alpha * (r - GradientAgent.avgAfter s r) * p.2)).set a
        (s.value_estimates.getD a 0
          + s.alpha * (r - GradientAgent.avgAfter s r)
            * (1 - (softmax s.value_estimates).getD a 0)) := by
    simp only [GradientAgent.observe, hla]
  have hD : (s.value_estimates.zip (softmax s.value_estimates)).map
      (fun p => p.1 - s.alpha * (r - GradientAgent.avgAfter s r) * p.2)
      = s.value_estimates.map (fun x =>
          x - s.alpha * (r - GradientAgent.avgAfter s r)
            * (Real.exp x / (s.value_estimates.map Real.exp).sum)) := by
    rw [softmax, zip_self_map, List.map_map]
    rfl
  have hDlen : ((s.value_estimates.zip (softmax s.value_estimates)).map
      (fun p => p.1 - s.alpha * (r - GradientAgent.avgAfter s r) * p.2)).length
      = s.value_estimates.length := by
    rw [hD, List.length_map]
  refine ⟨?_, ?_, ?_⟩
  · rw [hobs]
    exact getD_set_self _ _ _ _ (by rw [hDlen]; exact ha)
  · intro i hi
    rw [hobs, getD_set_ne _ _ _ _ _ hi, hD]
    by_cases hil : i < s.value_estimates.length
    · rw [List.getD_eq_getElem _ _ (by simpa using hil), List.getElem_map,
        List.getD_eq_getElem _ _ hil,
        List.getD_eq_getElem _ _ (by simpa [softmax] using hil)]
      simp only [softmax, List.getElem_map]
    · push_neg at hil
      rw [List.getD_eq_default _ _ (by simpa using hil),
        List.getD_eq_default _ _ hil,
        List.getD_eq_default _ _ (by simpa [softmax] using hil)]
      ring
  · have hne : s.value_estimates ≠ [] := by
      intro hnil
      rw [hnil] at ha
      simp at ha
    rw [hobs, sum_set_real _ _ _ (by rw [hDlen]; exact ha), hD,
      sum_map_sub_mul]
    have hsm : (s.value_estimates.map (fun x =>
        Real.exp x / (s.value_estimates.map Real.exp).sum)).sum = 1 :=
      softmax_sum s.value_estimates hne
    rw [hsm]
    rw [List.getD_eq_getElem _ _ (by simpa using ha), List.getElem_map,
      List.getD_eq_getElem _ _ ha,
      List.getD_eq_getElem _ _ (by simpa [softmax] using ha)]
    simp only [softmax, List.getElem_map]
    ring

/-- Witness for C7 at a concrete input: a fresh two-arm `GradientAgent`
(zero preferences, `alpha = 1`, baseline on) that chose arm 0 and observes
reward 1 keeps its preference sum unchanged. -/
theorem gradient_preference_deltas_witness :
    (GradientAgent.observe
        (GradientAgent.choose (GradientAgent.init 2 0 1 true) 0)
        1).value_estimates.sum
      = (GradientAgent.choose
          (GradientAgent.init 2 0 1 true) 0).value_estimates.sum :=
  (gradient_preference_deltas
    (GradientAgent.choose (GradientAgent.init 2 0 1 true) 0) 1 0 rfl
    (by simp [GradientAgent.init, GradientAgent.choose])).2.2

end Bandits
